import Mathlib

/-!
# Shared-memory transport of hiredis (`deps/hiredis/shm.c`)

A shallow embedding of the transport layer of `shm.c`: the liveness probe
`isConnectionBroken`, the two polling loops `sharedMemoryWrite` and
`sharedMemoryRead`, and the handshake (`sharedMemoryInit`,
`sharedMemoryInitAfterReply`, `sharedMemoryIsInitialized`, `sharedMemoryFree`).

Everything the C code obtains from outside the process (the answers of
`select`/`read` on the socket, the free/used space of a ring that the peer
process mutates concurrently, the outcome of `malloc`, `shm_open`, ...) is an
explicit input of the model.  The two loops carry a fuel argument: a blocking
call is a busy-wait that need not end.
-/

namespace Shm

/-! ## Constants -/

/-- The `#define SHARED_MEMORY_BUF_SIZE (1024*16)` of `shm.c`. -/
def SHARED_MEMORY_BUF_SIZE : Nat := 1024 * 16

/-- The `#define SHARED_MEMORY_PROTO_VERSION 1` of `shm.c`. -/
def SHARED_MEMORY_PROTO_VERSION : Nat := 1

/-- The `#define SHARED_MEMORY_DEFAULT_MODE 00700` of `shm.h` (octal). -/
def SHARED_MEMORY_DEFAULT_MODE : Nat := 0o700

/-- Modelled from the spec: the constant `PIPE_BUF` comes from the system header
`limits.h`, which is not part of the repository.  The spec fixes the atomic
threshold at 4096 (the Linux value); `shm.c` refuses to compile unless
`PIPE_BUF <= SHARED_MEMORY_BUF_SIZE`. -/
def PIPE_BUF : Nat := 4096

/-- Number of values of a `size_t` (64-bit host). -/
def SIZE_T_RANGE : Nat := 2 ^ 64

/-- Modelled from the spec: `REDIS_BLOCK` is declared in `hiredis.h`, which is
not among the sources; it is the lowest bit of `redisContext.flags`. -/
def REDIS_BLOCK : Nat := 0x1

/-- Modelled from the spec: `REDIS_REPLY_INTEGER` is declared in `hiredis.h`
(the reply types are numbered string 1, array 2, integer 3, nil 4, status 5,
error 6). -/
def REDIS_REPLY_INTEGER : Int := 3

/-- Modelled from the spec: `REDIS_REPLY_ERROR` of `hiredis.h`. -/
def REDIS_REPLY_ERROR : Int := 6

/-- Modelled from the spec: `REDIS_ERR_OTHER` of `hiredis.h`. -/
def REDIS_ERR_OTHER : Int := 2

/-- Modelled from the spec: `REDIS_ERR_OOM` of `hiredis.h`. -/
def REDIS_ERR_OOM : Int := 5

/-! ## Data model -/

/-- The `errno` values the transport distinguishes. -/
inductive Errno where
  | EINTR
  | EAGAIN
  | EPIPE
  | ENOMEM
  | EBADF
  | ECONNRESET
  deriving DecidableEq, Repr

/-- The fields of `redisReply` that the handshake inspects. -/
structure redisReply where
  type : Int
  integer : Int
  deriving DecidableEq, Repr

/-- The `struct redisSharedMemoryContext` of `shm.c`.  `name` is the C string
held in `char name[38]` (empty exactly when `name[0] == 0`); `mem` is the
address of the mapping, `none` standing for `MAP_FAILED`. -/
structure redisSharedMemoryContext where
  name : List Char
  mode : Nat
  mem : Option Nat
  deriving DecidableEq, Repr

/-- The fields of `redisContext` that `shm.c` reads or writes.  `shm_context`
is the nullable pointer to the side structure. -/
structure redisContext where
  err : Int
  errstr : String
  fd : Int
  flags : Nat
  shm_context : Option redisSharedMemoryContext
  deriving DecidableEq, Repr

/-- The test `c->flags & REDIS_BLOCK`. -/
def isBlocking (c : redisContext) : Bool := (c.flags &&& REDIS_BLOCK) != 0

/-- System calls and allocator calls issued by `shm.c`, in the order issued. -/
inductive SysCall where
  | malloc
  | free
  | fopen_uuid
  | fread_uuid
  | fclose_uuid
  | shm_unlink (name : List Char)
  | shm_open (name : List Char) (mode : Nat)
  | ftruncate (fd : Int)
  | mmap (fd : Int)
  | munmap (addr : Nat)
  | close (fd : Int)
  | select (fd : Int)
  | read (fd : Int)
  | fdSetBlocking (fd : Int) (blocking : Bool)
  | redisCommand (args : List (List Char))
  deriving DecidableEq, Repr

/-! ## The liveness probe -/

/-- What the kernel answers on the socket, were it asked during one pass of a
polling loop: the return value of `select` and the `errno` it leaves, the
return value of the one-byte `read` and the `errno` in force when
`isConnectionBroken` evaluates its final test. -/
structure Socket where
  selret : Int
  select_errno : Errno
  readret : Int
  read_errno : Errno
  deriving DecidableEq, Repr

/-- Result of `isConnectionBroken`: the `int` it returns and the calls it made
on the socket. -/
structure Probe where
  ret : Int
  calls : List SysCall
  deriving DecidableEq, Repr

/-- The function `isConnectionBroken(c, iteration)` of `shm.c`.  The helper
`fdSetBlocking` (two `fcntl` calls whose outcome the caller discards) is
recorded as one call. -/
def isConnectionBroken (c : redisContext) (sock : Socket) (iteration : Nat) : Probe :=
  if iteration = 0 ∨ iteration % 10000 ≠ 0 then
    ⟨0, []⟩
  else
    let sel := [SysCall.select c.fd]
    if sock.selret = 0 ∨ (sock.selret = -1 ∧ sock.select_errno = Errno.EINTR) then
      ⟨0, sel⟩
    else if sock.selret = -1 then
      ⟨1, sel⟩
    else
      let pre := if isBlocking c then [SysCall.fdSetBlocking c.fd false] else []
      let post := if isBlocking c then [SysCall.fdSetBlocking c.fd true] else []
      let ret : Int :=
        if 0 ≤ sock.readret ∨
            (sock.readret = -1 ∧ sock.read_errno ≠ Errno.EAGAIN
              ∧ sock.read_errno ≠ Errno.EINTR) then 1 else 0
      ⟨ret, sel ++ pre ++ [SysCall.read c.fd] ++ post⟩

/-! ## The ring buffers, as seen by one pass of a polling loop -/

/-- Modelled from the spec: `CharFifo_FreeSpace` and `CharFifo_UsedSpace` belong
to the header `lockless-char-fifo/charfifo.h`, which is not among the sources.
By the ring-buffer contract `used_space + free_space == C`, so each of them
answers a value between 0 and the capacity `SHARED_MEMORY_BUF_SIZE` of the type
`sharedMemoryBuffer`.  The peer process changes the ring between any two
samples, so the value sampled in each pass is an input. -/
abbrev Space := Fin (SHARED_MEMORY_BUF_SIZE + 1)

/-- What one pass of a polling loop observes: the socket, the answer of
`CharFifo_FreeSpace(&mem->to_server)` and the answer of
`CharFifo_UsedSpace(&mem->to_client)`. -/
structure Pass where
  sock : Socket
  free : Space
  used : Space

/-- The schedule of the outside world: pass number `k` (counted from 0) of a
loop observes `env k`. -/
abbrev Env := Nat → Pass

/-! ## `sharedMemoryWrite` -/

/-- One call `CharFifo_Write(target, buf+off, len)`, with the pass that issued it. -/
structure FifoWrite where
  pass : Nat
  off : Nat
  len : Nat
  deriving DecidableEq, Repr

/-- The expression `(free < btw-bw ? free : btw-bw)` assigned to `btw_chunk`.
The loop keeps `bw <= btw`, so the `size_t` subtraction does not wrap, and the
value is at most the ring capacity, so storing it in an `int` is exact. -/
def btw_chunk (free btw bw : Nat) : Nat :=
  if free < btw - bw then free else btw - bw

/-- State of the `do ... while` loop of `sharedMemoryWrite`.  `iteration` counts
the passes made so far; `exited` tells whether the loop has been left. -/
structure WriteLoop where
  bw : Nat
  conn_broken : Int
  writes : List FifoWrite
  iteration : Nat
  exited : Bool
  deriving DecidableEq, Repr

/-- The `do ... while (bw < btw && (c->flags & REDIS_BLOCK))` loop of
`sharedMemoryWrite`, run for at most `fuel` passes from pass `k` with `bw`
bytes written so far.  The counter handed to `isConnectionBroken` is the
`size_t iteration`, hence `k` reduced modulo `SIZE_T_RANGE`.  A `continue`
inside a `do ... while` jumps to the evaluation of the loop condition. -/
def writeLoop (c : redisContext) (env : Env) (btw : Nat) :
    Nat → Nat → Nat → List FifoWrite → WriteLoop
  | 0, k, bw, ws => ⟨bw, 0, ws, k, false⟩
  | fuel + 1, k, bw, ws =>
    let conn_broken := (isConnectionBroken c (env k).sock (k % SIZE_T_RANGE)).ret
    if conn_broken ≠ 0 then
      ⟨bw, conn_broken, ws, k + 1, true⟩
    else
      let free : Nat := (env k).free
      if btw ≤ PIPE_BUF ∧ free < btw then
        if isBlocking c then
          if bw < btw ∧ isBlocking c then writeLoop c env btw fuel (k + 1) bw ws
          else ⟨bw, conn_broken, ws, k + 1, true⟩
        else
          ⟨bw, conn_broken, ws, k + 1, true⟩
      else
        let bw1 := if 0 < free then bw + btw_chunk free btw bw else bw
        let ws1 := if 0 < free then ws ++ [⟨k, bw, btw_chunk free btw bw⟩] else ws
        if bw1 < btw ∧ isBlocking c then writeLoop c env btw fuel (k + 1) bw1 ws1
        else ⟨bw1, conn_broken, ws1, k + 1, true⟩

/-- What a returned call of `sharedMemoryWrite` leaves behind: the `ssize_t`
result, the value the call itself stored in `errno` (`none` when it stored
nothing), and the final loop variables. -/
structure WriteResult where
  ret : Int
  errno : Option Errno
  bw : Nat
  conn_broken : Int
  writes : List FifoWrite
  iteration : Nat
  deriving DecidableEq, Repr

/-- The epilogue of `sharedMemoryWrite`, after the loop. -/
def writeReturn (btw : Nat) (s : WriteLoop) : WriteResult :=
  if s.bw ≠ 0 ∨ btw = 0 then
    ⟨s.bw, none, s.bw, s.conn_broken, s.writes, s.iteration⟩
  else if s.conn_broken ≠ 0 then
    ⟨-1, some Errno.EPIPE, s.bw, s.conn_broken, s.writes, s.iteration⟩
  else
    ⟨-1, some Errno.EAGAIN, s.bw, s.conn_broken, s.writes, s.iteration⟩

/-- The function `sharedMemoryWrite(c, buf, btw)` of `shm.c`, given `fuel`
passes: `none` when the loop is still running after `fuel` passes.  The bytes of
`buf` do not influence control flow; the calls in `writes` say which slices of
`buf` went to the ring.  `btw` is the length of a buffer object, so `bw`,
which never exceeds it, stays within `ssize_t`. -/
def sharedMemoryWrite (fuel : Nat) (c : redisContext) (env : Env) (btw : Nat) :
    Option WriteResult :=
  let s := writeLoop c env btw fuel 0 0 []
  if s.exited then some (writeReturn btw s) else none

/-! ## `sharedMemoryRead` -/

/-- One call `CharFifo_Read(source, buf, len)`, with the pass that issued it. -/
structure FifoRead where
  pass : Nat
  len : Nat
  deriving DecidableEq, Repr

/-- The expression `(used < btr ? used : btr)` assigned to `br`. -/
def br_chunk (used btr : Nat) : Nat :=
  if used < btr then used else btr

/-- State of the `do ... while` loop of `sharedMemoryRead`. -/
structure ReadLoop where
  br : Nat
  conn_broken : Int
  reads : List FifoRead
  iteration : Nat
  exited : Bool
  deriving DecidableEq, Repr

/-- The `do ... while (br == 0 && (c->flags & REDIS_BLOCK))` loop of
`sharedMemoryRead`, run for at most `fuel` passes from pass `k`, `br` being the
current content of the variable `br`. -/
def readLoop (c : redisContext) (env : Env) (btr : Nat) :
    Nat → Nat → Nat → List FifoRead → ReadLoop
  | 0, k, br, rs => ⟨br, 0, rs, k, false⟩
  | fuel + 1, k, br, rs =>
    let conn_broken := (isConnectionBroken c (env k).sock (k % SIZE_T_RANGE)).ret
    if conn_broken ≠ 0 then
      ⟨br, conn_broken, rs, k + 1, true⟩
    else
      let used : Nat := (env k).used
      let br1 := if 0 < used then br_chunk used btr else br
      let rs1 := if 0 < used then rs ++ [⟨k, br_chunk used btr⟩] else rs
      if br1 = 0 ∧ isBlocking c then readLoop c env btr fuel (k + 1) br1 rs1
      else ⟨br1, conn_broken, rs1, k + 1, true⟩

/-- Outcome of a returned call of `sharedMemoryRead`. -/
structure ReadResult where
  ret : Int
  errno : Option Errno
  br : Nat
  conn_broken : Int
  reads : List FifoRead
  iteration : Nat
  deriving DecidableEq, Repr

/-- The epilogue of `sharedMemoryRead`, after the loop. -/
def readReturn (s : ReadLoop) : ReadResult :=
  if s.br ≠ 0 then
    ⟨s.br, none, s.br, s.conn_broken, s.reads, s.iteration⟩
  else if s.conn_broken ≠ 0 then
    ⟨0, none, s.br, s.conn_broken, s.reads, s.iteration⟩
  else
    ⟨-1, some Errno.EAGAIN, s.br, s.conn_broken, s.reads, s.iteration⟩

/-- The function `sharedMemoryRead(c, buf, btr)` of `shm.c`, given `fuel` passes.
The local `size_t br;` is declared without an initialiser and is read by the
loop condition and by the epilogue on paths that never assign it, so the
content it starts with is an input of the model: `br_init`. -/
def sharedMemoryRead (fuel : Nat) (c : redisContext) (env : Env) (btr : Nat)
    (br_init : Nat) : Option ReadResult :=
  let s := readLoop c env btr fuel 0 br_init []
  if s.exited then some (readReturn s) else none

/-- Bytes moved by a list of ring reads. -/
def bytesRead (rs : List FifoRead) : Nat := (rs.map (·.len)).sum

/-- Bytes handed to the ring by a list of ring writes. -/
def bytesWritten (ws : List FifoWrite) : Nat := (ws.map (·.len)).sum

/-- The slice `buf[off .. off+len)` a ring write takes from the caller's buffer. -/
def chunkBytes (buf : List Nat) (w : FifoWrite) : List Nat :=
  (buf.drop w.off).take w.len

/-- Everything a list of ring writes put into the ring, in call order. -/
def deposited (buf : List Nat) (ws : List FifoWrite) : List Nat :=
  (ws.map (chunkBytes buf)).flatten

/-! ## Handshake -/

/-- The client process: the connection object and the system calls issued on
its behalf so far, oldest first. -/
structure Proc where
  c : redisContext
  trace : List SysCall
  deriving DecidableEq, Repr

/-- What the host answers while a segment is created: whether `malloc`
succeeds, whether `/proc/sys/kernel/random/uuid` opens, the bytes it holds,
the descriptor `shm_open` returns, the result of `ftruncate`, and the address
`mmap` returns (`none` for `MAP_FAILED`). -/
structure Host where
  malloc_ok : Bool
  fopen_ok : Bool
  uuid : List Char
  shm_open_fd : Int
  ftruncate_ret : Int
  mmap_ret : Option Nat
  deriving DecidableEq, Repr

/-- Modelled from the spec: `__redisSetError` is defined in `hiredis.c`, which is
not among the sources; it stores the error type and message in the context. -/
def redisSetError (p : Proc) (type : Int) (str : String) : Proc :=
  { p with c := { p.c with err := type, errstr := str } }

/-- The `munmap` that `sharedMemoryFree` issues when `mem != MAP_FAILED`. -/
def unmapCalls (mem : Option Nat) : List SysCall :=
  match mem with
  | some addr => [SysCall.munmap addr]
  | none => []

/-- The function `sharedMemoryFree(c)` of `shm.c`. -/
def sharedMemoryFree (p : Proc) : Proc :=
  match p.c.shm_context with
  | none => p
  | some ctx =>
    { c := { p.c with shm_context := none },
      trace := p.trace ++ unmapCalls ctx.mem
        ++ (if ctx.name ≠ [] then [SysCall.shm_unlink ctx.name] else [])
        ++ [SysCall.free] }

/-- The function `getRandomUUID(c, buf, size)` of `shm.c`: the process after the
call, the `int` returned and the bytes stored in `buf`. -/
def getRandomUUID (p : Proc) (host : Host) (size : Nat) : Proc × Int × List Char :=
  let p1 : Proc := { p with trace := p.trace ++ [SysCall.fopen_uuid] }
  if host.fopen_ok = false then
    (redisSetError (sharedMemoryFree p1) REDIS_ERR_OTHER
      "Can't read /proc/sys/kernel/random/uuid", 0, [])
  else
    let bytes := host.uuid.take size
    let p2 : Proc :=
      { p1 with trace := p1.trace ++ [SysCall.fread_uuid, SysCall.fclose_uuid] }
    if bytes.length ≠ size then
      (redisSetError (sharedMemoryFree p2) REDIS_ERR_OTHER
        "Incomplete read of /proc/sys/kernel/random/uuid", 0, bytes)
    else
      (p2, 1, bytes)

/-- The function `sharedMemoryContextInit(c, mode)` of `shm.c`: the process
after the call and the `int` returned.  `sizeof(name)` is 38, so 36 bytes are
asked of `getRandomUUID`. -/
def sharedMemoryContextInit (p : Proc) (host : Host) (mode : Nat) : Proc × Int :=
  let p0 : Proc := { p with trace := p.trace ++ [SysCall.malloc] }
  if host.malloc_ok = false then
    (redisSetError { p0 with c := { p0.c with shm_context := none } }
      REDIS_ERR_OOM "Out of memory", 0)
  else
    let p1 : Proc :=
      { p0 with c := { p0.c with
          shm_context := some ⟨[], SHARED_MEMORY_DEFAULT_MODE, none⟩ } }
    let got := getRandomUUID p1 host (38 - 2)
    let p2 := got.1
    if got.2.1 = 0 then (p2, 0)
    else
      let name := '/' :: got.2.2
      let ctx : redisSharedMemoryContext := ⟨name, mode, none⟩
      let p3 : Proc :=
        { c := { p2.c with shm_context := some ctx },
          trace := p2.trace ++ [SysCall.shm_unlink name, SysCall.shm_open name mode] }
      if host.shm_open_fd < 0 then
        (redisSetError (sharedMemoryFree p3) REDIS_ERR_OTHER
          "Can't create shared memory file", 0)
      else
        let p4 : Proc := { p3 with trace := p3.trace ++ [SysCall.ftruncate host.shm_open_fd] }
        if host.ftruncate_ret ≠ 0 then
          (redisSetError (sharedMemoryFree p4) REDIS_ERR_OOM "Out of shared memory", 0)
        else
          let p5 : Proc :=
            { c := { p4.c with shm_context := some { ctx with mem := host.mmap_ret } },
              trace := p4.trace ++ [SysCall.mmap host.shm_open_fd] }
          if host.mmap_ret = none then
            (redisSetError (sharedMemoryFree p5) REDIS_ERR_OTHER
              "Can't mmap the shared memory file", 0)
          else
            ({ p5 with trace := p5.trace ++ [SysCall.close host.shm_open_fd] }, 1)

/-- The function `sharedMemoryProcessShmOpenReply(c, reply)` of `shm.c`; a
`NULL` reply is `none`.  Called only with `c->shm_context` non-null; on a null
context the C code dereferences a null pointer, which the model leaves as the
identity. -/
def sharedMemoryProcessShmOpenReply (p : Proc) (reply : Option redisReply) : Proc :=
  match p.c.shm_context with
  | none => p
  | some ctx =>
    let p1 : Proc :=
      { c := { p.c with shm_context := some { ctx with name := [] } },
        trace := p.trace ++ [SysCall.shm_unlink ctx.name] }
    match reply with
    | some r =>
      if r.type = REDIS_REPLY_INTEGER ∧ r.integer = 1 then p1 else sharedMemoryFree p1
    | none => sharedMemoryFree p1

/-- The arguments of the command `SHM.OPEN %d %s` sent by the handshake. -/
def shmOpenCommand (name : List Char) : List (List Char) :=
  ["SHM.OPEN".toList, (toString SHARED_MEMORY_PROTO_VERSION).toList, name]

/-- The function `sharedMemoryEstablishCommunication(c)` of `shm.c`.
`redisCommand` belongs to `hiredis.c`; what it returns for the command is the
input `reply` (`none` for `NULL`, which is what a non-blocking context always
gets).  The command is issued with `c->shm_context` detached, and the pointer
is put back afterwards.  Called only after `sharedMemoryContextInit` returned
1, hence with a context; on a null context the C code dereferences a null
pointer, which the model leaves as the identity. -/
def sharedMemoryEstablishCommunication (p : Proc) (reply : Option redisReply) :
    Proc × Option redisReply :=
  match p.c.shm_context with
  | none => (p, reply)
  | some tmp =>
    let p1 : Proc := { p with trace := p.trace ++ [SysCall.redisCommand (shmOpenCommand tmp.name)] }
    if isBlocking p1.c then (sharedMemoryProcessShmOpenReply p1 reply, reply)
    else (p1, reply)

/-- The function `sharedMemoryInit(c, mode)` of `shm.c`: the process after the
call and the reply returned (`none` for `NULL`). -/
def sharedMemoryInit (p : Proc) (host : Host) (mode : Nat) (reply : Option redisReply) :
    Proc × Option redisReply :=
  let p0 : Proc := { p with c := { p.c with err := 0, errstr := "" } }
  let made := sharedMemoryContextInit p0 host mode
  if made.2 = 0 then (made.1, none) else sharedMemoryEstablishCommunication made.1 reply

/-- The function `sharedMemoryIsInitialized(c)` of `shm.c`. -/
def sharedMemoryIsInitialized (c : redisContext) : Bool :=
  match c.shm_context with
  | none => false
  | some ctx => ctx.name = []

/-- The function `sharedMemoryInitAfterReply(c, reply)` of `shm.c`. -/
def sharedMemoryInitAfterReply (p : Proc) (reply : Option redisReply) : Proc :=
  match p.c.shm_context with
  | none => p
  | some ctx =>
    if isBlocking p.c = false ∧ ctx.name ≠ [] then sharedMemoryProcessShmOpenReply p reply
    else p

/-! ## Loop invariants -/

/-- The loop invariant of `sharedMemoryWrite`: `bw` never exceeds `btw`, it is
the number of bytes handed to the ring, the ring received `buf[0..bw)` in
order, and each ring write respected the free space sampled in its pass. -/
def WriteInv (env : Env) (btw : Nat) (buf : List Nat) (bw : Nat) (ws : List FifoWrite) :
    Prop :=
  bw ≤ btw ∧ bw = bytesWritten ws ∧ deposited buf ws = buf.take bw ∧
    ∀ w ∈ ws, w.len ≤ ((env w.pass).free : Nat) ∧ w.len ≤ btw - w.off ∧ w.off ≤ btw

/-- The loop invariant of `sharedMemoryRead`, for a variable `br` that holds no
more than the bytes read so far: each ring read respected the used space
sampled in its pass and the requested length. -/
def ReadInv (env : Env) (btr : Nat) (br : Nat) (rs : List FifoRead) : Prop :=
  br ≤ bytesRead rs ∧ br ≤ btr ∧
    ∀ rd ∈ rs, rd.len ≤ ((env rd.pass).used : Nat) ∧ rd.len ≤ btr

/-- The reply is an integer reply whose value is 1: the test
`reply != NULL && reply->type == REDIS_REPLY_INTEGER && reply->integer == 1`. -/
def Accepted : Option redisReply → Prop
  | some r => r.type = REDIS_REPLY_INTEGER ∧ r.integer = 1
  | none => False

instance : DecidablePred Accepted := fun reply =>
  match reply with
  | some r => inferInstanceAs (Decidable (r.type = REDIS_REPLY_INTEGER ∧ r.integer = 1))
  | none => inferInstanceAs (Decidable False)

/-- Every step of the creation of a segment succeeds on this host. -/
def HostOk (host : Host) : Prop :=
  host.malloc_ok = true ∧ host.fopen_ok = true ∧ 36 ≤ host.uuid.length ∧
    0 ≤ host.shm_open_fd ∧ host.ftruncate_ret = 0 ∧ host.mmap_ret ≠ none

/-! ## Fixtures used to run the model on concrete inputs -/

/-- A socket on which `select` finds nothing to read. -/
def quietSocket : Socket := ⟨0, Errno.EINTR, -1, Errno.EAGAIN⟩

/-- A socket whose peer has closed: readable, and `read` returns 0. -/
def closedSocket : Socket := ⟨1, Errno.EINTR, 0, Errno.EINTR⟩

/-- A blocking connection with an established segment. -/
def blockingCtx : redisContext :=
  ⟨0, "", 3, REDIS_BLOCK, some ⟨[], SHARED_MEMORY_DEFAULT_MODE, some 4096⟩⟩

/-- A non-blocking connection with an established segment. -/
def nonBlockingCtx : redisContext :=
  ⟨0, "", 3, 0, some ⟨[], SHARED_MEMORY_DEFAULT_MODE, some 4096⟩⟩

/-- A world in which every pass observes the same socket and ring levels. -/
def steady (sock : Socket) (free used : Space) : Env := fun _ => ⟨sock, free, used⟩

/-- A reader that has the whole ring free at pass 0 and frees 4096 bytes before
every later pass. -/
def drainingReader : Env := fun k => ⟨quietSocket, if k = 0 then 16384 else 4096, 0⟩

/-- A reader that leaves 4 bytes free at pass 0 and has emptied the ring before
every later pass. -/
def drainingReaderLate : Env := fun k => ⟨quietSocket, if k = 0 then 4 else 16384, 0⟩

/-- A connection whose handshake is pending: the segment exists and its name
is still linked. -/
def pendingCtx (flags : Nat) : redisContext :=
  ⟨0, "", 3, flags, some ⟨"/segment".toList, SHARED_MEMORY_DEFAULT_MODE, some 4096⟩⟩

/-- A host on which the creation of a segment succeeds. -/
def goodHost : Host := ⟨true, true, List.replicate 36 'a', 4, 0, some 4096⟩

/-- An integer reply with the given value. -/
def integerReply (v : Int) : redisReply := ⟨REDIS_REPLY_INTEGER, v⟩

/-- An error reply. -/
def errorReply : redisReply := ⟨REDIS_REPLY_ERROR, 0⟩

/-! ## Facts about the liveness probe -/

theorem isConnectionBroken_skip (c : redisContext) (sock : Socket) (i : Nat)
    (h : i % 10000 ≠ 0) : isConnectionBroken c sock i = ⟨0, []⟩ := by
  unfold isConnectionBroken
  rw [if_pos (Or.inr h)]

theorem isConnectionBroken_zero (c : redisContext) (sock : Socket) :
    isConnectionBroken c sock 0 = ⟨0, []⟩ := by
  unfold isConnectionBroken
  rw [if_pos (Or.inl rfl)]

theorem isConnectionBroken_early (c : redisContext) (sock : Socket) (k : Nat)
    (h : k < 10000) : (isConnectionBroken c sock (k % SIZE_T_RANGE)).ret = 0 := by
  have hk : k % SIZE_T_RANGE = k := Nat.mod_eq_of_lt (by unfold SIZE_T_RANGE; omega)
  rw [hk]
  rcases Nat.eq_zero_or_pos k with h0 | hpos
  · subst h0
    rw [isConnectionBroken_zero]
  · rw [isConnectionBroken_skip]
    rw [Nat.mod_eq_of_lt h]
    omega

theorem isConnectionBroken_quiet (c : redisContext) (i : Nat) :
    (isConnectionBroken c quietSocket i).ret = 0 := by
  unfold isConnectionBroken
  split_ifs <;> simp_all [quietSocket]

/-! ## Invariants of the write loop -/

theorem btw_chunk_le_free (free btw bw : Nat) : btw_chunk free btw bw ≤ free := by
  unfold btw_chunk
  split_ifs <;> omega

theorem btw_chunk_le_rest (free btw bw : Nat) : btw_chunk free btw bw ≤ btw - bw := by
  unfold btw_chunk
  split_ifs <;> omega

/-- The value assigned to the `int btw_chunk` fits an `int`: the conversion from
`size_t` is exact. -/
theorem btw_chunk_fits_int (free : Space) (btw bw : Nat) :
    btw_chunk free btw bw < 2 ^ 31 := by
  have h1 := btw_chunk_le_free free btw bw
  have h2 : (free : Nat) < SHARED_MEMORY_BUF_SIZE + 1 := free.isLt
  unfold SHARED_MEMORY_BUF_SIZE at h2
  omega

theorem bytesWritten_append (ws : List FifoWrite) (w : FifoWrite) :
    bytesWritten (ws ++ [w]) = bytesWritten ws + w.len := by
  simp [bytesWritten]

theorem deposited_append (buf : List Nat) (ws : List FifoWrite) (w : FifoWrite) :
    deposited buf (ws ++ [w]) = deposited buf ws ++ chunkBytes buf w := by
  simp [deposited]

theorem writeInv_init (env : Env) (btw : Nat) (buf : List Nat) :
    WriteInv env btw buf 0 [] := by
  simp [WriteInv, bytesWritten, deposited]

theorem writeInv_step {env : Env} {btw : Nat} {buf : List Nat} {bw : Nat}
    {ws : List FifoWrite} (h : WriteInv env btw buf bw ws) (k : Nat) :
    WriteInv env btw buf (bw + btw_chunk (env k).free btw bw)
      (ws ++ [⟨k, bw, btw_chunk (env k).free btw bw⟩]) := by
  obtain ⟨h1, h2, h3, h4⟩ := h
  have hc := btw_chunk_le_rest (env k).free btw bw
  have hf := btw_chunk_le_free (env k).free btw bw
  refine ⟨by omega, ?_, ?_, ?_⟩
  · rw [bytesWritten_append, ← h2]
  · rw [deposited_append, h3, List.take_add]
    rfl
  · intro w hw
    rcases List.mem_append.mp hw with hw | hw
    · exact h4 w hw
    · rw [List.mem_singleton] at hw
      subst hw
      exact ⟨hf, hc, h1⟩

theorem writeLoop_inv (c : redisContext) (env : Env) (btw : Nat) (buf : List Nat) :
    ∀ (fuel k bw : Nat) (ws : List FifoWrite), WriteInv env btw buf bw ws →
      WriteInv env btw buf (writeLoop c env btw fuel k bw ws).bw
        (writeLoop c env btw fuel k bw ws).writes := by
  intro fuel
  induction fuel with
  | zero => intro k bw ws h; simpa [writeLoop] using h
  | succ n ih =>
    intro k bw ws h
    have hs := writeInv_step h k
    simp only [writeLoop]
    split_ifs <;> first | exact h | exact hs | exact ih _ _ _ h | exact ih _ _ _ hs

theorem writeLoop_atomic (c : redisContext) (env : Env) (btw : Nat) (h : btw ≤ PIPE_BUF) :
    ∀ (fuel k : Nat),
      ((writeLoop c env btw fuel k 0 []).writes = [] ∧
        (writeLoop c env btw fuel k 0 []).bw = 0) ∨
      (∃ j, (writeLoop c env btw fuel k 0 []).writes = [⟨j, 0, btw⟩] ∧
        (writeLoop c env btw fuel k 0 []).bw = btw ∧
        (writeLoop c env btw fuel k 0 []).exited = true) := by
  intro fuel
  induction fuel with
  | zero => intro k; left; exact ⟨rfl, rfl⟩
  | succ n ih =>
    intro k
    simp only [writeLoop]
    by_cases hb : (isConnectionBroken c (env k).sock (k % SIZE_T_RANGE)).ret ≠ 0
    · rw [if_pos hb]; left; exact ⟨rfl, rfl⟩
    · rw [if_neg hb]
      by_cases hg : btw ≤ PIPE_BUF ∧ ((env k).free : Nat) < btw
      · rw [if_pos hg]
        split_ifs
        · exact ih _
        all_goals (left; exact ⟨rfl, rfl⟩)
      · rw [if_neg hg]
        have hfree : btw ≤ ((env k).free : Nat) := by
          by_contra hlt
          exact hg ⟨h, by omega⟩
        by_cases hp : 0 < ((env k).free : Nat)
        · have hc : btw_chunk (env k).free btw 0 = btw := by
            unfold btw_chunk
            split_ifs <;> omega
          simp only [if_pos hp, hc, Nat.zero_add, List.nil_append]
          rw [if_neg (by omega)]
          right
          exact ⟨k, rfl, rfl, rfl⟩
        · have h0 : btw = 0 := by omega
          simp only [if_neg hp]
          rw [if_neg (by omega)]
          left
          exact ⟨rfl, rfl⟩

theorem writeLoop_blocking_exit (c : redisContext) (env : Env) (btw : Nat)
    (hblk : isBlocking c = true) :
    ∀ (fuel k bw : Nat) (ws : List FifoWrite),
      (writeLoop c env btw fuel k bw ws).exited = true →
      (writeLoop c env btw fuel k bw ws).conn_broken = 0 →
      btw ≤ (writeLoop c env btw fuel k bw ws).bw := by
  intro fuel
  induction fuel with
  | zero => intro k bw ws he; simp [writeLoop] at he
  | succ n ih =>
    intro k bw ws
    simp only [writeLoop, hblk]
    split_ifs with h1 h2 h3 h4 h5 <;>
      first
      | exact ih _ _ _
      | (intro _ hc; exact absurd hc h1)
      | (intro _ _; simp_all)

theorem writeLoop_early_alive (c : redisContext) (env : Env) (btw : Nat) :
    ∀ (fuel k bw : Nat) (ws : List FifoWrite),
      (writeLoop c env btw fuel k bw ws).iteration ≤ 10000 →
      (writeLoop c env btw fuel k bw ws).conn_broken = 0 := by
  intro fuel
  induction fuel with
  | zero => intro k bw ws _; rfl
  | succ n ih =>
    intro k bw ws
    simp only [writeLoop]
    by_cases hb : (isConnectionBroken c (env k).sock (k % SIZE_T_RANGE)).ret ≠ 0
    · rw [if_pos hb]
      intro hk
      have hk1 : k + 1 ≤ 10000 := hk
      exact absurd (isConnectionBroken_early c (env k).sock k (by omega)) hb
    · rw [if_neg hb]
      have h0 : (isConnectionBroken c (env k).sock (k % SIZE_T_RANGE)).ret = 0 := by
        simpa using hb
      split_ifs <;> first | exact ih _ _ _ | (intro _; exact h0)

theorem writeLoop_nonblocking (c : redisContext) (env : Env) (btw : Nat)
    (hnb : isBlocking c = false) (fuel bw : Nat) (ws : List FifoWrite) :
    (writeLoop c env btw (fuel + 1) 0 bw ws).exited = true ∧
      (writeLoop c env btw (fuel + 1) 0 bw ws).iteration = 1 ∧
      (writeLoop c env btw (fuel + 1) 0 bw ws).conn_broken = 0 := by
  simp only [writeLoop, hnb, Nat.zero_mod, isConnectionBroken_zero]
  split_ifs <;> simp_all

theorem writeLoop_alive (c : redisContext) (env : Env) (btw : Nat)
    (halive : ∀ k, (isConnectionBroken c (env k).sock (k % SIZE_T_RANGE)).ret = 0) :
    ∀ (fuel k bw : Nat) (ws : List FifoWrite),
      (writeLoop c env btw fuel k bw ws).conn_broken = 0 := by
  intro fuel
  induction fuel with
  | zero => intro k bw ws; rfl
  | succ n ih =>
    intro k bw ws
    simp only [writeLoop, halive k, ne_eq, not_true_eq_false, if_false]
    split_ifs <;> first | exact ih _ _ _ | rfl

/-- A blocking write leaves the loop within `btw - bw + 1` passes when every
pass finds the peer alive, at least one free byte, and, for a length within
the atomic threshold, room for the whole buffer. -/
theorem writeLoop_blocking_returns (c : redisContext) (env : Env) (btw : Nat)
    (halive : ∀ k, (isConnectionBroken c (env k).sock (k % SIZE_T_RANGE)).ret = 0)
    (hroom : ∀ k, 0 < ((env k).free : Nat))
    (hatomic : btw ≤ PIPE_BUF → ∀ k, btw ≤ ((env k).free : Nat)) :
    ∀ (fuel k bw : Nat) (ws : List FifoWrite), bw ≤ btw → btw - bw < fuel →
      (writeLoop c env btw fuel k bw ws).exited = true := by
  intro fuel
  induction fuel with
  | zero => intro k bw ws _ h; omega
  | succ n ih =>
    intro k bw ws hle hfuel
    have hgate : ¬ (btw ≤ PIPE_BUF ∧ ((env k).free : Nat) < btw) := by
      rintro ⟨h1, h2⟩
      have := hatomic h1 k
      omega
    have hchunk : bw < btw → 0 < btw_chunk (env k).free btw bw := by
      intro h
      have := hroom k
      unfold btw_chunk
      split_ifs <;> omega
    have hrest := btw_chunk_le_rest (env k).free btw bw
    simp only [writeLoop, halive k, ne_eq, not_true_eq_false, if_false, if_neg hgate,
      if_pos (hroom k)]
    split_ifs with hcont
    · have := hchunk (by omega)
      exact ih _ _ _ (by omega) (by omega)
    · rfl

/-! ## The epilogue of `sharedMemoryWrite` -/

@[simp] theorem writeReturn_bw (btw : Nat) (s : WriteLoop) : (writeReturn btw s).bw = s.bw := by
  unfold writeReturn; split_ifs <;> rfl

@[simp] theorem writeReturn_writes (btw : Nat) (s : WriteLoop) :
    (writeReturn btw s).writes = s.writes := by
  unfold writeReturn; split_ifs <;> rfl

@[simp] theorem writeReturn_conn_broken (btw : Nat) (s : WriteLoop) :
    (writeReturn btw s).conn_broken = s.conn_broken := by
  unfold writeReturn; split_ifs <;> rfl

@[simp] theorem writeReturn_iteration (btw : Nat) (s : WriteLoop) :
    (writeReturn btw s).iteration = s.iteration := by
  unfold writeReturn; split_ifs <;> rfl

theorem writeReturn_errno_epipe (btw : Nat) (s : WriteLoop)
    (h : (writeReturn btw s).errno = some Errno.EPIPE) : s.conn_broken ≠ 0 := by
  unfold writeReturn at h
  split_ifs at h with h1 h2
  · exact h2
  · have h3 : some Errno.EAGAIN = some Errno.EPIPE := h
    exact absurd h3 (by decide)

theorem sharedMemoryWrite_eq_some (fuel : Nat) (c : redisContext) (env : Env) (btw : Nat)
    (r : WriteResult) :
    sharedMemoryWrite fuel c env btw = some r ↔
      (writeLoop c env btw fuel 0 0 []).exited = true ∧
        r = writeReturn btw (writeLoop c env btw fuel 0 0 []) := by
  unfold sharedMemoryWrite
  by_cases h : (writeLoop c env btw fuel 0 0 []).exited = true
  · simp [h, eq_comm]
  · simp [h]

/-! ## Claims about `sharedMemoryWrite` -/

/-- C1 (atomic-write law): for a requested length `btw <= PIPE_BUF`, in blocking
and in non-blocking mode and whatever the free-space samples and probe answers
are, the loop of `sharedMemoryWrite` has at every moment either handed nothing
to the ring or handed all `btw` bytes in one `CharFifo_Write` of length `btw`
at offset 0 (and then it has left the loop); in particular a call that returns
has deposited either nothing or exactly `buf[0..btw)`, never a proper part. -/
theorem sharedMemoryWrite_atomic (fuel : Nat) (c : redisContext) (env : Env) (btw : Nat)
    (h : btw ≤ PIPE_BUF) :
    (((writeLoop c env btw fuel 0 0 []).writes = [] ∧
        (writeLoop c env btw fuel 0 0 []).bw = 0) ∨
      (∃ j, (writeLoop c env btw fuel 0 0 []).writes = [⟨j, 0, btw⟩] ∧
        (writeLoop c env btw fuel 0 0 []).bw = btw ∧
        (writeLoop c env btw fuel 0 0 []).exited = true)) ∧
    ∀ r, sharedMemoryWrite fuel c env btw = some r →
      ((r.writes = [] ∧ r.bw = 0) ∨ (∃ j, r.writes = [⟨j, 0, btw⟩] ∧ r.bw = btw)) ∧
      ∀ buf : List Nat, deposited buf r.writes = [] ∨ deposited buf r.writes = buf.take btw := by
  have hl := writeLoop_atomic c env btw h fuel 0
  refine ⟨hl, ?_⟩
  intro r hr
  obtain ⟨_, rfl⟩ := (sharedMemoryWrite_eq_some fuel c env btw r).mp hr
  simp only [writeReturn_writes, writeReturn_bw]
  rcases hl with ⟨h1, h2⟩ | ⟨j, h1, h2, _⟩
  · refine ⟨Or.inl ⟨h1, h2⟩, fun buf => Or.inl ?_⟩
    rw [h1]
    rfl
  · refine ⟨Or.inr ⟨j, h1, h2⟩, fun buf => Or.inr ?_⟩
    rw [h1]
    simp [deposited, chunkBytes]

/-- Witness of C1: a blocking write of 10 bytes that finds 4 free bytes in pass
0 and the whole ring free afterwards hands the ring one write of 10 bytes. -/
theorem sharedMemoryWrite_atomic_witness :
    sharedMemoryWrite 5 blockingCtx drainingReaderLate 10
        = some ⟨10, none, 10, 0, [⟨1, 0, 10⟩], 2⟩ ∧
      ∀ buf : List Nat,
        deposited buf [⟨1, 0, 10⟩] = [] ∨ deposited buf [⟨1, 0, 10⟩] = buf.take 10 :=
  ⟨by decide,
    ((sharedMemoryWrite_atomic 5 blockingCtx drainingReaderLate 10 (by decide)).2
      ⟨10, none, 10, 0, [⟨1, 0, 10⟩], 2⟩ (by decide)).2⟩

/-- C2 (return contract of `sharedMemoryWrite`): for every call that returns,
`bw` is the number of bytes handed to the ring; the result is `bw` when
`bw > 0` or `btw = 0`, whatever the probe said; otherwise the result is -1 with
`errno` EPIPE when the probe reported the peer dead and EAGAIN when it did not.
A non-blocking write of 10 bytes that finds 5 free bytes returns -1/EAGAIN
after one pass, without any ring write. -/
theorem sharedMemoryWrite_return :
    (∀ (fuel : Nat) (c : redisContext) (env : Env) (btw : Nat) (r : WriteResult),
      sharedMemoryWrite fuel c env btw = some r →
        r.bw = bytesWritten r.writes ∧
        ((0 < r.bw ∨ btw = 0) → r.ret = r.bw ∧ r.errno = none) ∧
        ((r.bw = 0 ∧ 0 < btw) → r.ret = -1 ∧
          (r.conn_broken ≠ 0 → r.errno = some Errno.EPIPE) ∧
          (r.conn_broken = 0 → r.errno = some Errno.EAGAIN))) ∧
    (∀ (fuel : Nat) (c : redisContext) (env : Env),
      isBlocking c = false → ((env 0).free : Nat) = 5 →
        sharedMemoryWrite (fuel + 1) c env 10 = some ⟨-1, some Errno.EAGAIN, 0, 0, [], 1⟩) := by
  constructor
  · intro fuel c env btw r hr
    obtain ⟨_, rfl⟩ := (sharedMemoryWrite_eq_some fuel c env btw r).mp hr
    have hinv := writeLoop_inv c env btw [] fuel 0 0 [] (writeInv_init env btw [])
    refine ⟨?_, ?_, ?_⟩
    · simpa using hinv.2.1
    · intro hpos
      have hc : (writeLoop c env btw fuel 0 0 []).bw ≠ 0 ∨ btw = 0 := by
        rcases hpos with hp | hp
        · left; simp only [writeReturn_bw] at hp; omega
        · right; exact hp
      simp [writeReturn, hc]
    · rintro ⟨hz, hpos⟩
      simp only [writeReturn_bw] at hz
      have hc : ¬ ((writeLoop c env btw fuel 0 0 []).bw ≠ 0 ∨ btw = 0) := by
        rintro (hp | hp)
        · exact hp hz
        · omega
      unfold writeReturn
      rw [if_neg hc]
      split_ifs with hb
      · exact ⟨rfl, fun _ => rfl, fun h0 => absurd h0 hb⟩
      · exact ⟨rfl, fun h1 => absurd h1 hb, fun _ => rfl⟩
  · intro fuel c env hnb hfree
    simp [sharedMemoryWrite, writeLoop, hnb, isConnectionBroken_zero, hfree, PIPE_BUF,
      writeReturn]

/-- Witness of C2: the scenario of the spec, and a blocking call that finds the
peer dead at pass 10000 before any byte could be written. -/
theorem sharedMemoryWrite_return_witness :
    sharedMemoryWrite 1 nonBlockingCtx (steady quietSocket 5 0) 10
        = some ⟨-1, some Errno.EAGAIN, 0, 0, [], 1⟩ ∧
      ((0 : Nat) = bytesWritten [] ∧
        ((0 < (0 : Nat) ∨ 10 = 0) → (-1 : Int) = (0 : Nat) ∧ some Errno.EAGAIN = none) ∧
        (((0 : Nat) = 0 ∧ 0 < 10) → (-1 : Int) = -1 ∧
          ((0 : Int) ≠ 0 → some Errno.EAGAIN = some Errno.EPIPE) ∧
          ((0 : Int) = 0 → some Errno.EAGAIN = some Errno.EAGAIN))) :=
  ⟨sharedMemoryWrite_return.2 0 nonBlockingCtx (steady quietSocket 5 0) rfl (by decide),
    sharedMemoryWrite_return.1 1 nonBlockingCtx (steady quietSocket 5 0) 10
      ⟨-1, some Errno.EAGAIN, 0, 0, [], 1⟩ (by decide)⟩

/-- C5 (a blocking write delivers everything in order): in blocking mode, for
every requested length (also beyond the ring capacity) and every schedule of
free-space samples, a call that returns without the probe having reported the
peer dead returns `btw`, and the slices it handed to `CharFifo_Write`,
concatenated in call order, are exactly `buf[0..btw)`. -/
theorem sharedMemoryWrite_blocking_delivers (fuel : Nat) (c : redisContext) (env : Env)
    (btw : Nat) (buf : List Nat) (r : WriteResult)
    (hblk : isBlocking c = true)
    (hret : sharedMemoryWrite fuel c env btw = some r)
    (halive : r.conn_broken = 0) :
    r.ret = btw ∧ r.errno = none ∧ r.bw = btw ∧ deposited buf r.writes = buf.take btw := by
  obtain ⟨hex, rfl⟩ := (sharedMemoryWrite_eq_some fuel c env btw r).mp hret
  have hinv := writeLoop_inv c env btw buf fuel 0 0 [] (writeInv_init env btw buf)
  simp only [writeReturn_conn_broken] at halive
  have hge := writeLoop_blocking_exit c env btw hblk fuel 0 0 [] hex halive
  have hbw : (writeLoop c env btw fuel 0 0 []).bw = btw := Nat.le_antisymm hinv.1 hge
  have hc : (writeLoop c env btw fuel 0 0 []).bw ≠ 0 ∨ btw = 0 := by omega
  refine ⟨?_, ?_, ?_, ?_⟩
  · unfold writeReturn
    rw [if_pos hc]
    exact congrArg Int.ofNat hbw
  · unfold writeReturn
    rw [if_pos hc]
  · simpa using hbw
  · rw [writeReturn_writes, hinv.2.2.1, hbw]

/-- Witness of C5: 20000 bytes, more than the ring holds, written in blocking
mode while the reader frees 4096 bytes between passes. -/
theorem sharedMemoryWrite_blocking_delivers_witness :
    sharedMemoryWrite 4 blockingCtx drainingReader 20000
        = some ⟨20000, none, 20000, 0, [⟨0, 0, 16384⟩, ⟨1, 16384, 3616⟩], 2⟩ ∧
      deposited (List.range 20000) [⟨0, 0, 16384⟩, ⟨1, 16384, 3616⟩]
        = (List.range 20000).take 20000 :=
  ⟨by decide,
    (sharedMemoryWrite_blocking_delivers 4 blockingCtx drainingReader 20000
      (List.range 20000) ⟨20000, none, 20000, 0, [⟨0, 0, 16384⟩, ⟨1, 16384, 3616⟩], 2⟩
      (by decide) (by decide) rfl).2.2.2⟩

/-- A blocking write does return, with the whole buffer delivered, within
`btw + 1` passes when every pass finds the peer alive, at least one free byte,
and, for a length within the atomic threshold, room for the whole buffer. -/
theorem sharedMemoryWrite_blocking_returns (c : redisContext) (env : Env) (btw : Nat)
    (hblk : isBlocking c = true)
    (halive : ∀ k, (isConnectionBroken c (env k).sock (k % SIZE_T_RANGE)).ret = 0)
    (hroom : ∀ k, 0 < ((env k).free : Nat))
    (hatomic : btw ≤ PIPE_BUF → ∀ k, btw ≤ ((env k).free : Nat)) :
    ∃ r, sharedMemoryWrite (btw + 1) c env btw = some r ∧ r.ret = btw ∧ r.bw = btw ∧
      r.conn_broken = 0 := by
  have hex := writeLoop_blocking_returns c env btw halive hroom hatomic (btw + 1) 0 0 []
    (Nat.zero_le _) (by omega)
  have hcb := writeLoop_alive c env btw halive (btw + 1) 0 0 []
  have hinv := writeLoop_inv c env btw [] (btw + 1) 0 0 [] (writeInv_init env btw [])
  have hge := writeLoop_blocking_exit c env btw hblk (btw + 1) 0 0 [] hex hcb
  have hbw : (writeLoop c env btw (btw + 1) 0 0 []).bw = btw := Nat.le_antisymm hinv.1 hge
  have hc : (writeLoop c env btw (btw + 1) 0 0 []).bw ≠ 0 ∨ btw = 0 := by omega
  refine ⟨writeReturn btw (writeLoop c env btw (btw + 1) 0 0 []),
    (sharedMemoryWrite_eq_some _ _ _ _ _).mpr ⟨hex, rfl⟩, ?_, by simpa using hbw,
    by simpa using hcb⟩
  unfold writeReturn
  rw [if_pos hc]
  exact congrArg Int.ofNat hbw

/-! ## Facts about the read loop -/

theorem readLoop_nonblocking (c : redisContext) (env : Env) (btr : Nat)
    (hnb : isBlocking c = false) (fuel br : Nat) (rs : List FifoRead) :
    (readLoop c env btr (fuel + 1) 0 br rs).exited = true ∧
      (readLoop c env btr (fuel + 1) 0 br rs).iteration = 1 ∧
      (readLoop c env btr (fuel + 1) 0 br rs).conn_broken = 0 := by
  simp only [readLoop, hnb, Nat.zero_mod, isConnectionBroken_zero]
  split_ifs <;> simp_all

theorem readLoop_early_alive (c : redisContext) (env : Env) (btr : Nat) :
    ∀ (fuel k br : Nat) (rs : List FifoRead),
      (readLoop c env btr fuel k br rs).iteration ≤ 10000 →
      (readLoop c env btr fuel k br rs).conn_broken = 0 := by
  intro fuel
  induction fuel with
  | zero => intro k br rs _; rfl
  | succ n ih =>
    intro k br rs
    simp only [readLoop]
    by_cases hb : (isConnectionBroken c (env k).sock (k % SIZE_T_RANGE)).ret ≠ 0
    · rw [if_pos hb]
      intro hk
      have hk1 : k + 1 ≤ 10000 := hk
      exact absurd (isConnectionBroken_early c (env k).sock k (by omega)) hb
    · rw [if_neg hb]
      have h0 : (isConnectionBroken c (env k).sock (k % SIZE_T_RANGE)).ret = 0 := by
        simpa using hb
      split_ifs <;> first | exact ih _ _ _ | (intro _; exact h0)

/-- Once a pass finds the peer alive and the ring non-empty, a read of a
positive length leaves the loop in that very pass with `min used btr` bytes. -/
theorem readLoop_short_circuit (c : redisContext) (env : Env) (btr fuel k br : Nat)
    (rs : List FifoRead)
    (hlive : (isConnectionBroken c (env k).sock (k % SIZE_T_RANGE)).ret = 0)
    (hused : 0 < ((env k).used : Nat)) (hbtr : 0 < btr) :
    readLoop c env btr (fuel + 1) k br rs
      = ⟨min ((env k).used : Nat) btr, 0, rs ++ [⟨k, min ((env k).used : Nat) btr⟩],
          k + 1, true⟩ := by
  have hm : br_chunk ((env k).used : Nat) btr = min ((env k).used : Nat) btr := by
    unfold br_chunk
    split_ifs <;> omega
  have hpos : ¬ (min ((env k).used : Nat) btr = 0 ∧ isBlocking c = true) := by
    rintro ⟨hz, _⟩
    omega
  simp only [readLoop, hlive, ne_eq, not_true_eq_false, if_false, if_pos hused, hm]
  rw [if_neg hpos]

theorem bytesRead_append (rs : List FifoRead) (rd : FifoRead) :
    bytesRead (rs ++ [rd]) = bytesRead rs + rd.len := by
  simp [bytesRead]

theorem br_chunk_le_used (used btr : Nat) : br_chunk used btr ≤ used := by
  unfold br_chunk
  split_ifs <;> omega

theorem br_chunk_le_btr (used btr : Nat) : br_chunk used btr ≤ btr := by
  unfold br_chunk
  split_ifs <;> omega

theorem readInv_init (env : Env) (btr : Nat) : ReadInv env btr 0 [] := by
  simp [ReadInv, bytesRead]

theorem readInv_step {env : Env} {btr br : Nat} {rs : List FifoRead}
    (h : ReadInv env btr br rs) (k : Nat) :
    ReadInv env btr (br_chunk ((env k).used : Nat) btr)
      (rs ++ [⟨k, br_chunk ((env k).used : Nat) btr⟩]) := by
  obtain ⟨_, _, h2⟩ := h
  refine ⟨?_, br_chunk_le_btr _ _, ?_⟩
  · rw [bytesRead_append]
    exact Nat.le_add_left _ _
  · intro rd hrd
    rcases List.mem_append.mp hrd with hrd | hrd
    · exact h2 rd hrd
    · rw [List.mem_singleton] at hrd
      subst hrd
      exact ⟨br_chunk_le_used _ _, br_chunk_le_btr _ _⟩

theorem readLoop_inv (c : redisContext) (env : Env) (btr : Nat) :
    ∀ (fuel k br : Nat) (rs : List FifoRead), ReadInv env btr br rs →
      ReadInv env btr (readLoop c env btr fuel k br rs).br
        (readLoop c env btr fuel k br rs).reads := by
  intro fuel
  induction fuel with
  | zero => intro k br rs h; simpa [readLoop] using h
  | succ n ih =>
    intro k br rs h
    have hs := readInv_step h k
    simp only [readLoop]
    split_ifs <;> first | exact h | exact hs | exact ih _ _ _ h | exact ih _ _ _ hs

/-! ## The epilogue of `sharedMemoryRead` -/

@[simp] theorem readReturn_br (s : ReadLoop) : (readReturn s).br = s.br := by
  unfold readReturn; split_ifs <;> rfl

@[simp] theorem readReturn_reads (s : ReadLoop) : (readReturn s).reads = s.reads := by
  unfold readReturn; split_ifs <;> rfl

@[simp] theorem readReturn_conn_broken (s : ReadLoop) :
    (readReturn s).conn_broken = s.conn_broken := by
  unfold readReturn; split_ifs <;> rfl

@[simp] theorem readReturn_iteration (s : ReadLoop) :
    (readReturn s).iteration = s.iteration := by
  unfold readReturn; split_ifs <;> rfl

theorem readReturn_ret_zero (s : ReadLoop) (h : (readReturn s).ret = 0) :
    s.conn_broken ≠ 0 := by
  unfold readReturn at h
  split_ifs at h with h1 h2
  · exact absurd (Int.ofNat_eq_zero.mp h) h1
  · exact h2
  · have h3 : (-1 : Int) = 0 := h
    exact absurd h3 (by decide)

theorem sharedMemoryRead_eq_some (fuel : Nat) (c : redisContext) (env : Env) (btr br_init : Nat)
    (r : ReadResult) :
    sharedMemoryRead fuel c env btr br_init = some r ↔
      (readLoop c env btr fuel 0 br_init []).exited = true ∧
        r = readReturn (readLoop c env btr fuel 0 br_init []) := by
  unfold sharedMemoryRead
  by_cases h : (readLoop c env btr fuel 0 br_init []).exited = true
  · simp [h, eq_comm]
  · simp [h]

/-- A blocking read of length 0 never leaves the loop while the peer is alive
and the ring is non-empty: every pass reads 0 bytes and tests `br == 0`. -/
theorem readLoop_zero_length_spins (c : redisContext) (env : Env)
    (hblk : isBlocking c = true)
    (halive : ∀ k, (isConnectionBroken c (env k).sock (k % SIZE_T_RANGE)).ret = 0)
    (hused : ∀ k, 0 < ((env k).used : Nat)) :
    ∀ (fuel k br : Nat) (rs : List FifoRead),
      (readLoop c env 0 fuel k br rs).exited = false := by
  intro fuel
  induction fuel with
  | zero => intro k br rs; rfl
  | succ n ih =>
    intro k br rs
    have hz : br_chunk ((env k).used : Nat) 0 = 0 := by
      unfold br_chunk
      split_ifs <;> omega
    simp only [readLoop, halive k, ne_eq, not_true_eq_false, if_false, if_pos (hused k), hz,
      hblk, and_self, if_true]
    exact ih _ _ _

/-! ## Claims about `sharedMemoryRead` -/

/-- The read short-circuit for a positive requested length: if the first pass
finds the ring non-empty, the call returns after that pass with
`min used btr`, in blocking and in non-blocking mode, whatever `br` held. -/
theorem sharedMemoryRead_short_circuit (fuel : Nat) (c : redisContext) (env : Env)
    (btr br_init : Nat) (hused : 0 < ((env 0).used : Nat)) (hbtr : 0 < btr) :
    sharedMemoryRead (fuel + 1) c env btr br_init
      = some ⟨(min ((env 0).used : Nat) btr : Nat), none, min ((env 0).used : Nat) btr, 0,
          [⟨0, min ((env 0).used : Nat) btr⟩], 1⟩ := by
  have hlive : (isConnectionBroken c (env 0).sock (0 % SIZE_T_RANGE)).ret = 0 := by
    rw [Nat.zero_mod, isConnectionBroken_zero]
  have hne : min ((env 0).used : Nat) btr ≠ 0 := by omega
  unfold sharedMemoryRead
  rw [readLoop_short_circuit c env btr fuel 0 br_init [] hlive hused hbtr]
  simp [readReturn, hne]

/-- C3 (read short-circuit) at the requested length 0: with 5 bytes waiting in
the ring and a live peer, a non-blocking `sharedMemoryRead` of length 0 does
not return `min(5, 0) = 0` but -1 with EAGAIN, and a blocking one never
returns, however many passes it is given. -/
theorem sharedMemoryRead_zero_length :
    (∀ br_init : Nat,
      sharedMemoryRead 1 nonBlockingCtx (steady quietSocket 0 5) 0 br_init
        = some ⟨-1, some Errno.EAGAIN, 0, 0, [⟨0, 0⟩], 1⟩) ∧
    (∀ fuel br_init : Nat,
      sharedMemoryRead fuel blockingCtx (steady quietSocket 0 5) 0 br_init = none) := by
  constructor
  · intro br_init
    rfl
  · intro fuel br_init
    have h := readLoop_zero_length_spins blockingCtx (steady quietSocket 0 5) (by decide)
      (fun k => isConnectionBroken_quiet _ _)
      (fun _ => (by decide : 0 < ((5 : Space) : Nat))) fuel 0 br_init []
    unfold sharedMemoryRead
    simp [h]

/-- The zero-byte contract of `sharedMemoryRead` holds when `br` starts at 0:
a returned call that read no byte yields 0 when the probe reported the peer
dead and -1 with EAGAIN when it did not. -/
theorem sharedMemoryRead_zero_result_initialised (fuel : Nat) (c : redisContext) (env : Env)
    (btr : Nat) (r : ReadResult)
    (hret : sharedMemoryRead fuel c env btr 0 = some r)
    (hnone : bytesRead r.reads = 0) :
    (r.conn_broken ≠ 0 → r.ret = 0 ∧ r.errno = none) ∧
      (r.conn_broken = 0 → r.ret = -1 ∧ r.errno = some Errno.EAGAIN) := by
  obtain ⟨_, rfl⟩ := (sharedMemoryRead_eq_some fuel c env btr 0 r).mp hret
  have hinv := readLoop_inv c env btr fuel 0 0 [] (readInv_init env btr)
  simp only [readReturn_reads] at hnone
  have hbr : (readLoop c env btr fuel 0 0 []).br = 0 := by
    have := hinv.1
    omega
  simp only [readReturn_conn_broken]
  unfold readReturn
  rw [if_neg (by simp [hbr])]
  constructor
  · intro hb
    rw [if_pos hb]
    exact ⟨rfl, rfl⟩
  · intro hb
    rw [if_neg (by simp [hb])]
    exact ⟨rfl, rfl⟩

/-- A call of `sharedMemoryRead` whose first pass finds the ring empty in
non-blocking mode returns the content `br` happened to start with, when that
is not 0, although nothing was read. -/
theorem sharedMemoryRead_returns_initial_br (fuel : Nat) (c : redisContext) (env : Env)
    (btr br_init : Nat) (hnb : isBlocking c = false) (hempty : ((env 0).used : Nat) = 0)
    (hgarbage : br_init ≠ 0) :
    sharedMemoryRead (fuel + 1) c env btr br_init
      = some ⟨br_init, none, br_init, 0, [], 1⟩ := by
  simp [sharedMemoryRead, readLoop, hnb, isConnectionBroken_zero, hempty, readReturn, hgarbage]

/-- C4 (zero-byte result of `sharedMemoryRead`) at an empty ring with a live
peer, when the uninitialised local `br` happens to hold 7: the call reads
nothing from the ring and returns 7 instead of -1 with EAGAIN, in non-blocking
and in blocking mode. -/
theorem sharedMemoryRead_empty_ring_uninitialised :
    sharedMemoryRead 1 nonBlockingCtx (steady quietSocket 0 0) 16 7
        = some ⟨7, none, 7, 0, [], 1⟩ ∧
      sharedMemoryRead 1 blockingCtx (steady quietSocket 0 0) 16 7
        = some ⟨7, none, 7, 0, [], 1⟩ := by
  constructor <;> rfl

/-- The ring preconditions are respected by `sharedMemoryWrite`: at every
moment `bw <= btw`, every `CharFifo_Write` has a length at most the free space
sampled in its pass and at most `btw` minus its offset, and a returned call has
a result of at most `btw`. -/
theorem sharedMemoryWrite_respects_ring (fuel : Nat) (c : redisContext) (env : Env)
    (btw : Nat) :
    (writeLoop c env btw fuel 0 0 []).bw ≤ btw ∧
      (∀ w ∈ (writeLoop c env btw fuel 0 0 []).writes,
        w.len ≤ ((env w.pass).free : Nat) ∧ w.len ≤ btw - w.off ∧ w.off ≤ btw) ∧
      ∀ r, sharedMemoryWrite fuel c env btw = some r → r.ret ≤ btw := by
  have hinv := writeLoop_inv c env btw [] fuel 0 0 [] (writeInv_init env btw [])
  refine ⟨hinv.1, hinv.2.2.2, ?_⟩
  intro r hr
  obtain ⟨_, rfl⟩ := (sharedMemoryWrite_eq_some fuel c env btw r).mp hr
  have h1 := hinv.1
  unfold writeReturn
  split_ifs <;> simp <;> omega

theorem readLoop_reads_bounded (c : redisContext) (env : Env) (btr : Nat) :
    ∀ (fuel k br : Nat) (rs : List FifoRead),
      (∀ rd ∈ rs, rd.len ≤ ((env rd.pass).used : Nat) ∧ rd.len ≤ btr) →
      ∀ rd ∈ (readLoop c env btr fuel k br rs).reads,
        rd.len ≤ ((env rd.pass).used : Nat) ∧ rd.len ≤ btr := by
  intro fuel
  induction fuel with
  | zero => intro k br rs h; simpa [readLoop] using h
  | succ n ih =>
    intro k br rs h
    have hs : ∀ rd ∈ rs ++ [(⟨k, br_chunk ((env k).used : Nat) btr⟩ : FifoRead)],
        rd.len ≤ ((env rd.pass).used : Nat) ∧ rd.len ≤ btr := by
      intro rd hrd
      rcases List.mem_append.mp hrd with hrd | hrd
      · exact h rd hrd
      · rw [List.mem_singleton] at hrd
        subst hrd
        exact ⟨br_chunk_le_used _ _, br_chunk_le_btr _ _⟩
    simp only [readLoop]
    split_ifs <;> first | exact h | exact hs | exact ih _ _ _ h | exact ih _ _ _ hs

/-- The ring preconditions are respected by `sharedMemoryRead`: whatever `br`
held at the start, every `CharFifo_Read` has a length at most the used space
sampled in its pass and at most `btr`; and when `br` starts at 0 the result
never exceeds `btr`. -/
theorem sharedMemoryRead_respects_ring (fuel : Nat) (c : redisContext) (env : Env)
    (btr : Nat) :
    (∀ br_init, ∀ rd ∈ (readLoop c env btr fuel 0 br_init []).reads,
        rd.len ≤ ((env rd.pass).used : Nat) ∧ rd.len ≤ btr) ∧
      ∀ r, sharedMemoryRead fuel c env btr 0 = some r → r.ret ≤ btr := by
  constructor
  · intro br_init
    exact readLoop_reads_bounded c env btr fuel 0 br_init [] (by simp)
  · intro r hr
    obtain ⟨_, rfl⟩ := (sharedMemoryRead_eq_some fuel c env btr 0 r).mp hr
    have hinv := readLoop_inv c env btr fuel 0 0 [] (readInv_init env btr)
    have h1 := hinv.2.1
    unfold readReturn
    split_ifs <;> simp <;> omega

/-- C9 (ring preconditions respected) at an empty ring with a live peer, when
the uninitialised local `br` happens to hold 7 and 3 bytes are requested: no
`CharFifo_Read` is issued and the positive result 7 exceeds `btr = 3`. -/
theorem sharedMemoryRead_result_exceeds_btr :
    ∃ r, sharedMemoryRead 1 nonBlockingCtx (steady quietSocket 0 0) 3 7 = some r ∧
      r.reads = [] ∧ 0 < r.ret ∧ ((3 : Nat) : Int) < r.ret :=
  ⟨⟨7, none, 7, 0, [], 1⟩, rfl, rfl, by decide, by decide⟩

/-! ## Claims about the liveness probe -/

/-- C8 (liveness sampling): for every iteration counter that is not a multiple
of 10000, `isConnectionBroken` returns 0 without any call on the socket,
whatever the socket would answer; a call on the socket is made only when the
counter is a multiple of 10000. -/
theorem isConnectionBroken_sampling (c : redisContext) (sock : Socket) (i : Nat) :
    (i % 10000 ≠ 0 → isConnectionBroken c sock i = ⟨0, []⟩) ∧
      ((isConnectionBroken c sock i).calls ≠ [] → i % 10000 = 0) := by
  refine ⟨isConnectionBroken_skip c sock i, ?_⟩
  intro hcalls
  by_contra hne
  rw [isConnectionBroken_skip c sock i hne] at hcalls
  exact hcalls rfl

/-- Witness of C8: on a socket whose peer has closed, iteration 7 reports alive
without touching the socket, and iteration 10000 does call `select`. -/
theorem isConnectionBroken_sampling_witness :
    isConnectionBroken blockingCtx closedSocket 7 = ⟨0, []⟩ ∧ 10000 % 10000 = 0 :=
  ⟨(isConnectionBroken_sampling blockingCtx closedSocket 7).1 (by decide),
    (isConnectionBroken_sampling blockingCtx closedSocket 10000).2 (by decide)⟩

/-- C10 (a non-blocking call never detects a dead peer): on the counters
0..9999 the probe reports alive without touching the socket; a non-blocking
`sharedMemoryWrite` or `sharedMemoryRead` returns after exactly one pass, with
`conn_broken = 0`, so the write never fails with EPIPE and the read never
returns 0; and any call that returns within 10000 passes has
`conn_broken = 0`, hence neither EPIPE nor the end-of-stream result 0. -/
theorem nonblocking_call_never_detects_dead_peer :
    (∀ (c : redisContext) (sock : Socket) (i : Nat), i < 10000 →
      isConnectionBroken c sock i = ⟨0, []⟩) ∧
    (∀ (fuel : Nat) (c : redisContext) (env : Env) (btw : Nat), isBlocking c = false →
      ∃ r, sharedMemoryWrite (fuel + 1) c env btw = some r ∧ r.iteration = 1 ∧
        r.conn_broken = 0 ∧ r.errno ≠ some Errno.EPIPE) ∧
    (∀ (fuel : Nat) (c : redisContext) (env : Env) (btr br_init : Nat), isBlocking c = false →
      ∃ r, sharedMemoryRead (fuel + 1) c env btr br_init = some r ∧ r.iteration = 1 ∧
        r.conn_broken = 0 ∧ r.ret ≠ 0) ∧
    (∀ (fuel : Nat) (c : redisContext) (env : Env) (btw : Nat) (r : WriteResult),
      sharedMemoryWrite fuel c env btw = some r → r.iteration ≤ 10000 →
        r.conn_broken = 0 ∧ r.errno ≠ some Errno.EPIPE) ∧
    (∀ (fuel : Nat) (c : redisContext) (env : Env) (btr br_init : Nat) (r : ReadResult),
      sharedMemoryRead fuel c env btr br_init = some r → r.iteration ≤ 10000 →
        r.conn_broken = 0 ∧ r.ret ≠ 0) := by
  refine ⟨?_, ?_, ?_, ?_, ?_⟩
  · intro c sock i hi
    rcases Nat.eq_zero_or_pos i with h0 | hpos
    · subst h0
      exact isConnectionBroken_zero c sock
    · apply isConnectionBroken_skip
      rw [Nat.mod_eq_of_lt hi]
      omega
  · intro fuel c env btw hnb
    obtain ⟨h1, h2, h3⟩ := writeLoop_nonblocking c env btw hnb fuel 0 []
    refine ⟨writeReturn btw (writeLoop c env btw (fuel + 1) 0 0 []), ?_, ?_, ?_, ?_⟩
    · exact (sharedMemoryWrite_eq_some _ _ _ _ _).mpr ⟨h1, rfl⟩
    · simpa using h2
    · simpa using h3
    · intro he
      exact writeReturn_errno_epipe _ _ he h3
  · intro fuel c env btr br_init hnb
    obtain ⟨h1, h2, h3⟩ := readLoop_nonblocking c env btr hnb fuel br_init []
    refine ⟨readReturn (readLoop c env btr (fuel + 1) 0 br_init []), ?_, ?_, ?_, ?_⟩
    · exact (sharedMemoryRead_eq_some _ _ _ _ _ _).mpr ⟨h1, rfl⟩
    · simpa using h2
    · simpa using h3
    · intro he
      exact readReturn_ret_zero _ he h3
  · intro fuel c env btw r hr hit
    obtain ⟨_, rfl⟩ := (sharedMemoryWrite_eq_some fuel c env btw r).mp hr
    simp only [writeReturn_iteration] at hit
    have h3 := writeLoop_early_alive c env btw fuel 0 0 [] hit
    refine ⟨by simpa using h3, ?_⟩
    intro he
    exact writeReturn_errno_epipe _ _ he h3
  · intro fuel c env btr br_init r hr hit
    obtain ⟨_, rfl⟩ := (sharedMemoryRead_eq_some fuel c env btr br_init r).mp hr
    simp only [readReturn_iteration] at hit
    have h3 := readLoop_early_alive c env btr fuel 0 br_init [] hit
    refine ⟨by simpa using h3, ?_⟩
    intro he
    exact readReturn_ret_zero _ he h3

/-- Witness of C10: with a peer that has already closed its socket, a
non-blocking write of 10 bytes into a full ring fails with EAGAIN, not EPIPE,
and a non-blocking read on an empty ring does not return 0. -/
theorem nonblocking_call_never_detects_dead_peer_witness :
    isConnectionBroken nonBlockingCtx closedSocket 9999 = ⟨0, []⟩ ∧
      (∃ r, sharedMemoryWrite 1 nonBlockingCtx (steady closedSocket 0 0) 10 = some r ∧
        r.iteration = 1 ∧ r.conn_broken = 0 ∧ r.errno ≠ some Errno.EPIPE) ∧
      (∃ r, sharedMemoryRead 1 nonBlockingCtx (steady closedSocket 0 0) 16 0 = some r ∧
        r.iteration = 1 ∧ r.conn_broken = 0 ∧ r.ret ≠ 0) ∧
      ((0 : Int) = 0 ∧ (none : Option Errno) ≠ some Errno.EPIPE) ∧
      ((0 : Int) = 0 ∧ (-1 : Int) ≠ 0) :=
  ⟨nonblocking_call_never_detects_dead_peer.1 nonBlockingCtx closedSocket 9999 (by decide),
    nonblocking_call_never_detects_dead_peer.2.1 0 nonBlockingCtx (steady closedSocket 0 0) 10
      (by decide),
    nonblocking_call_never_detects_dead_peer.2.2.1 0 nonBlockingCtx (steady closedSocket 0 0)
      16 0 (by decide),
    nonblocking_call_never_detects_dead_peer.2.2.2.1 3 blockingCtx (steady closedSocket 64 0) 10
      ⟨10, none, 10, 0, [⟨0, 0, 10⟩], 1⟩ (by decide) (by decide),
    nonblocking_call_never_detects_dead_peer.2.2.2.2 3 nonBlockingCtx (steady closedSocket 0 0)
      16 0 ⟨-1, some Errno.EAGAIN, 0, 0, [], 1⟩ (by decide) (by decide)⟩

/-! ## Facts about the handshake -/

theorem sharedMemoryProcessShmOpenReply_accept (p : Proc) (ctx : redisSharedMemoryContext)
    (reply : Option redisReply) (h : p.c.shm_context = some ctx) (ha : Accepted reply) :
    sharedMemoryProcessShmOpenReply p reply
      = ⟨{ p.c with shm_context := some { ctx with name := [] } },
          p.trace ++ [SysCall.shm_unlink ctx.name]⟩ := by
  unfold sharedMemoryProcessShmOpenReply
  rw [h]
  cases reply with
  | none => exact absurd ha (by simp [Accepted])
  | some r =>
    have hr : r.type = REDIS_REPLY_INTEGER ∧ r.integer = 1 := ha
    simp [hr]

theorem sharedMemoryProcessShmOpenReply_reject (p : Proc) (ctx : redisSharedMemoryContext)
    (reply : Option redisReply) (h : p.c.shm_context = some ctx) (ha : ¬ Accepted reply) :
    sharedMemoryProcessShmOpenReply p reply
      = ⟨{ p.c with shm_context := none },
          p.trace ++ [SysCall.shm_unlink ctx.name] ++ unmapCalls ctx.mem ++ [SysCall.free]⟩ := by
  unfold sharedMemoryProcessShmOpenReply
  rw [h]
  cases reply with
  | none => simp [sharedMemoryFree]
  | some r =>
    have hr : ¬ (r.type = REDIS_REPLY_INTEGER ∧ r.integer = 1) := ha
    simp only [if_neg hr]
    simp [sharedMemoryFree]

/-- What processing the reply does to a pending segment: established exactly
for an accepted reply, torn down otherwise. -/
theorem sharedMemoryProcessShmOpenReply_spec (p : Proc) (ctx : redisSharedMemoryContext)
    (reply : Option redisReply) (h : p.c.shm_context = some ctx) :
    (sharedMemoryIsInitialized (sharedMemoryProcessShmOpenReply p reply).c = true ↔
        Accepted reply) ∧
      (¬ Accepted reply →
        (sharedMemoryProcessShmOpenReply p reply).c.shm_context = none ∧
        sharedMemoryIsInitialized (sharedMemoryProcessShmOpenReply p reply).c = false ∧
        (sharedMemoryProcessShmOpenReply p reply).trace
          = p.trace ++ [SysCall.shm_unlink ctx.name] ++ unmapCalls ctx.mem
              ++ [SysCall.free]) := by
  by_cases ha : Accepted reply
  · rw [sharedMemoryProcessShmOpenReply_accept p ctx reply h ha]
    simp [sharedMemoryIsInitialized, ha]
  · rw [sharedMemoryProcessShmOpenReply_reject p ctx reply h ha]
    simp [sharedMemoryIsInitialized, ha]

theorem sharedMemoryContextInit_ok (p : Proc) (host : Host) (mode : Nat) (hok : HostOk host) :
    sharedMemoryContextInit p host mode
      = (⟨{ p.c with shm_context := some ⟨'/' :: host.uuid.take 36, mode, host.mmap_ret⟩ },
          p.trace ++ [SysCall.malloc, SysCall.fopen_uuid, SysCall.fread_uuid,
            SysCall.fclose_uuid, SysCall.shm_unlink ('/' :: host.uuid.take 36),
            SysCall.shm_open ('/' :: host.uuid.take 36) mode,
            SysCall.ftruncate host.shm_open_fd, SysCall.mmap host.shm_open_fd,
            SysCall.close host.shm_open_fd]⟩, 1) := by
  obtain ⟨h1, h2, h3, h4, h5, h6⟩ := hok
  have hlen : (List.take 36 host.uuid).length = 36 := by
    rw [List.length_take]
    omega
  simp [sharedMemoryContextInit, getRandomUUID, h1, h2, hlen, h5, h6, not_lt.mpr h4]

theorem sharedMemoryFree_context (p : Proc) :
    (sharedMemoryFree p).c.shm_context = none ∧ (sharedMemoryFree p).c.flags = p.c.flags := by
  unfold sharedMemoryFree
  cases h : p.c.shm_context with
  | none => exact ⟨h, rfl⟩
  | some ctx => exact ⟨rfl, rfl⟩

theorem redisSetError_free_context (p : Proc) (type : Int) (str : String) :
    (redisSetError (sharedMemoryFree p) type str).c.shm_context = none ∧
      (redisSetError (sharedMemoryFree p) type str).c.flags = p.c.flags :=
  sharedMemoryFree_context p

theorem getRandomUUID_context (p : Proc) (host : Host) (size : Nat) :
    (getRandomUUID p host size).1.c.flags = p.c.flags ∧
      ((getRandomUUID p host size).2.1 = 0 →
        (getRandomUUID p host size).1.c.shm_context = none) := by
  simp only [getRandomUUID]
  split_ifs
  · exact ⟨(redisSetError_free_context _ _ _).2, fun _ => (redisSetError_free_context _ _ _).1⟩
  · exact ⟨(redisSetError_free_context _ _ _).2, fun _ => (redisSetError_free_context _ _ _).1⟩
  · refine ⟨rfl, fun h => ?_⟩
    have h1 : (1 : Int) = 0 := h
    exact absurd h1 (by decide)

/-- After `sharedMemoryContextInit`, whatever the host answered, the blocking
flag is unchanged and a context that is present has a non-empty name. -/
theorem sharedMemoryContextInit_pending (p : Proc) (host : Host) (mode : Nat) :
    (sharedMemoryContextInit p host mode).1.c.flags = p.c.flags ∧
      ∀ ctx, (sharedMemoryContextInit p host mode).1.c.shm_context = some ctx →
        ctx.name ≠ [] := by
  unfold sharedMemoryContextInit
  by_cases hm : host.malloc_ok = false
  · simp only [if_pos hm]
    exact ⟨rfl, fun ctx h => by simp [redisSetError] at h⟩
  · simp only [if_neg hm]
    have hg := getRandomUUID_context
      ⟨{ p.c with shm_context := some ⟨[], SHARED_MEMORY_DEFAULT_MODE, none⟩ },
        p.trace ++ [SysCall.malloc]⟩ host (38 - 2)
    generalize getRandomUUID _ host (38 - 2) = got at hg ⊢
    obtain ⟨hflags, hfail⟩ := hg
    have hflags1 : got.1.c.flags = p.c.flags := hflags
    split_ifs with h0
    · refine ⟨hflags1, fun ctx h => ?_⟩
      have hnone : got.1.c.shm_context = none := hfail h0
      rw [hnone] at h
      exact absurd h (by simp)
    · refine ⟨(redisSetError_free_context _ _ _).2.trans hflags1, fun ctx h => ?_⟩
      rw [(redisSetError_free_context _ _ _).1] at h
      exact absurd h (by simp)
    · refine ⟨(redisSetError_free_context _ _ _).2.trans hflags1, fun ctx h => ?_⟩
      rw [(redisSetError_free_context _ _ _).1] at h
      exact absurd h (by simp)
    · refine ⟨(redisSetError_free_context _ _ _).2.trans hflags1, fun ctx h => ?_⟩
      rw [(redisSetError_free_context _ _ _).1] at h
      exact absurd h (by simp)
    · refine ⟨hflags1, fun ctx h => ?_⟩
      simp only [Option.some.injEq] at h
      rw [← h]
      simp

theorem isBlocking_of_flags {c d : redisContext} (h : c.flags = d.flags) :
    isBlocking c = isBlocking d := by
  unfold isBlocking
  rw [h]

theorem sharedMemoryIsInitialized_pending (c : redisContext)
    (h : ∀ ctx, c.shm_context = some ctx → ctx.name ≠ []) :
    sharedMemoryIsInitialized c = false := by
  unfold sharedMemoryIsInitialized
  cases hc : c.shm_context with
  | none => rfl
  | some ctx => simpa using h ctx hc

/-- In blocking mode `sharedMemoryEstablishCommunication` sends the command and
processes the reply at once. -/
theorem sharedMemoryEstablishCommunication_blocking (p : Proc)
    (ctx : redisSharedMemoryContext) (reply : Option redisReply)
    (h : p.c.shm_context = some ctx) (hblk : isBlocking p.c = true) :
    (sharedMemoryEstablishCommunication p reply).1
      = sharedMemoryProcessShmOpenReply
          ⟨p.c, p.trace ++ [SysCall.redisCommand (shmOpenCommand ctx.name)]⟩ reply := by
  unfold sharedMemoryEstablishCommunication
  rw [h]
  simp only [hblk, if_true]

/-! ## Claims about the handshake -/

/-- C6 (handshake acceptance): for a connection with a pending segment (context
present, name not cleared, hence not initialised) and every reply, also a
missing one, after the reply is processed by `sharedMemoryInitAfterReply`
(non-blocking mode), by `sharedMemoryEstablishCommunication` or by
`sharedMemoryInit` on a host where the segment gets created (blocking mode),
`sharedMemoryIsInitialized` is true exactly when the reply is an integer reply
of value 1; for every other reply the name is unlinked, the mapping unmapped,
the context freed, `shm_context` is NULL and `sharedMemoryIsInitialized` is
false. -/
theorem handshake_acceptance :
    (∀ (p : Proc) (ctx : redisSharedMemoryContext) (reply : Option redisReply),
      p.c.shm_context = some ctx → ctx.name ≠ [] → isBlocking p.c = false →
        sharedMemoryIsInitialized p.c = false ∧
        (sharedMemoryIsInitialized (sharedMemoryInitAfterReply p reply).c = true ↔
          Accepted reply) ∧
        (¬ Accepted reply →
          (sharedMemoryInitAfterReply p reply).c.shm_context = none ∧
          sharedMemoryIsInitialized (sharedMemoryInitAfterReply p reply).c = false ∧
          (sharedMemoryInitAfterReply p reply).trace
            = p.trace ++ [SysCall.shm_unlink ctx.name] ++ unmapCalls ctx.mem
                ++ [SysCall.free])) ∧
    (∀ (p : Proc) (ctx : redisSharedMemoryContext) (reply : Option redisReply),
      p.c.shm_context = some ctx → ctx.name ≠ [] → isBlocking p.c = true →
        sharedMemoryIsInitialized p.c = false ∧
        (sharedMemoryIsInitialized (sharedMemoryEstablishCommunication p reply).1.c = true ↔
          Accepted reply) ∧
        (¬ Accepted reply →
          (sharedMemoryEstablishCommunication p reply).1.c.shm_context = none ∧
          sharedMemoryIsInitialized (sharedMemoryEstablishCommunication p reply).1.c = false ∧
          (sharedMemoryEstablishCommunication p reply).1.trace
            = p.trace ++ [SysCall.redisCommand (shmOpenCommand ctx.name)]
                ++ [SysCall.shm_unlink ctx.name] ++ unmapCalls ctx.mem ++ [SysCall.free])) ∧
    (∀ (p : Proc) (host : Host) (mode : Nat) (reply : Option redisReply),
      isBlocking p.c = true → HostOk host →
        (sharedMemoryIsInitialized (sharedMemoryInit p host mode reply).1.c = true ↔
          Accepted reply) ∧
        (¬ Accepted reply →
          (sharedMemoryInit p host mode reply).1.c.shm_context = none ∧
          sharedMemoryIsInitialized (sharedMemoryInit p host mode reply).1.c = false ∧
          SysCall.shm_unlink ('/' :: host.uuid.take 36)
            ∈ (sharedMemoryInit p host mode reply).1.trace ∧
          SysCall.free ∈ (sharedMemoryInit p host mode reply).1.trace ∧
          ∀ addr, host.mmap_ret = some addr →
            SysCall.munmap addr ∈ (sharedMemoryInit p host mode reply).1.trace)) := by
  refine ⟨?_, ?_, ?_⟩
  · intro p ctx reply h hname hnb
    have hrun : sharedMemoryInitAfterReply p reply = sharedMemoryProcessShmOpenReply p reply := by
      unfold sharedMemoryInitAfterReply
      rw [h]
      simp only [if_pos (⟨hnb, hname⟩ : isBlocking p.c = false ∧ ctx.name ≠ [])]
    rw [hrun]
    refine ⟨?_, sharedMemoryProcessShmOpenReply_spec p ctx reply h⟩
    exact sharedMemoryIsInitialized_pending p.c (fun d hd => by
      rw [h] at hd
      cases hd
      exact hname)
  · intro p ctx reply h hname hblk
    rw [sharedMemoryEstablishCommunication_blocking p ctx reply h hblk]
    refine ⟨?_, sharedMemoryProcessShmOpenReply_spec
      ⟨p.c, p.trace ++ [SysCall.redisCommand (shmOpenCommand ctx.name)]⟩ ctx reply h⟩
    exact sharedMemoryIsInitialized_pending p.c (fun d hd => by
      rw [h] at hd
      cases hd
      exact hname)
  · intro p host mode reply hblk hok
    obtain ⟨q, hq, hrun⟩ : ∃ q : Proc,
        q.c.shm_context = some ⟨'/' :: host.uuid.take 36, mode, host.mmap_ret⟩ ∧
        (sharedMemoryInit p host mode reply).1 = sharedMemoryProcessShmOpenReply q reply := by
      unfold sharedMemoryInit
      simp only [sharedMemoryContextInit_ok _ host mode hok]
      rw [if_neg (by decide)]
      refine ⟨_, ?_, sharedMemoryEstablishCommunication_blocking _ _ reply rfl hblk⟩
      rfl
    rw [hrun]
    have hspec := sharedMemoryProcessShmOpenReply_spec q _ reply hq
    refine ⟨hspec.1, fun hrej => ?_⟩
    obtain ⟨h1, h2, h3⟩ := hspec.2 hrej
    refine ⟨h1, h2, ?_, ?_, ?_⟩
    · rw [h3]
      simp
    · rw [h3]
      simp
    · intro addr haddr
      rw [h3, haddr]
      simp [unmapCalls]

/-- Witness of C6: on a pending non-blocking connection the reply `1` establishes
the segment and the reply `0` tears it down; on a pending blocking connection a
missing reply tears it down; `sharedMemoryInit` in blocking mode on a good host
ends established for the reply `1` and torn down for an error reply. -/
theorem handshake_acceptance_witness :
    sharedMemoryIsInitialized
        (sharedMemoryInitAfterReply ⟨pendingCtx 0, []⟩ (some (integerReply 1))).c = true ∧
      (sharedMemoryInitAfterReply ⟨pendingCtx 0, []⟩ (some (integerReply 0))).c.shm_context
        = none ∧
      (sharedMemoryEstablishCommunication ⟨pendingCtx REDIS_BLOCK, []⟩ none).1.c.shm_context
        = none ∧
      sharedMemoryIsInitialized
        (sharedMemoryInit ⟨pendingCtx REDIS_BLOCK, []⟩ goodHost 0o600
          (some (integerReply 1))).1.c = true ∧
      (sharedMemoryInit ⟨pendingCtx REDIS_BLOCK, []⟩ goodHost 0o600
          (some errorReply)).1.c.shm_context = none :=
  ⟨(handshake_acceptance.1 ⟨pendingCtx 0, []⟩ _ (some (integerReply 1)) rfl (by decide)
      (by decide)).2.1.mpr (by decide),
    ((handshake_acceptance.1 ⟨pendingCtx 0, []⟩ _ (some (integerReply 0)) rfl (by decide)
      (by decide)).2.2 (by decide)).1,
    ((handshake_acceptance.2.1 ⟨pendingCtx REDIS_BLOCK, []⟩ _ none rfl (by decide)
      (by decide)).2.2 (by decide)).1,
    (handshake_acceptance.2.2 ⟨pendingCtx REDIS_BLOCK, []⟩ goodHost 0o600
      (some (integerReply 1)) (by decide) (by unfold HostOk; decide)).1.mpr (by decide),
    ((handshake_acceptance.2.2 ⟨pendingCtx REDIS_BLOCK, []⟩ goodHost 0o600
      (some errorReply) (by decide) (by unfold HostOk; decide)).2 (by decide)).1⟩

/-- C7 (the finalization hook is a no-op unless the handshake is pending):
`sharedMemoryInitAfterReply` returns the process unchanged, for every reply,
when the connection is blocking, when it has no shared-memory context, or when
the name is already cleared; after `sharedMemoryInit` on a non-blocking
connection `sharedMemoryIsInitialized` is false, whatever the host and the
reply; and once `sharedMemoryIsInitialized` is true, a further call of the hook
with any reply changes nothing: in particular, after the hook has accepted the
handshake, a later reply leaves the segment established. -/
theorem sharedMemoryInitAfterReply_noop :
    (∀ (p : Proc) (reply : Option redisReply),
      (isBlocking p.c = true ∨ p.c.shm_context = none ∨
          ∃ ctx, p.c.shm_context = some ctx ∧ ctx.name = []) →
        sharedMemoryInitAfterReply p reply = p) ∧
    (∀ (p : Proc) (host : Host) (mode : Nat) (reply : Option redisReply),
      isBlocking p.c = false →
        sharedMemoryIsInitialized (sharedMemoryInit p host mode reply).1.c = false) ∧
    (∀ (p : Proc) (reply : Option redisReply),
      sharedMemoryIsInitialized p.c = true → sharedMemoryInitAfterReply p reply = p) ∧
    (∀ (p : Proc) (ctx : redisSharedMemoryContext) (reply later : Option redisReply),
      p.c.shm_context = some ctx → ctx.name ≠ [] → isBlocking p.c = false →
        Accepted reply →
          sharedMemoryIsInitialized (sharedMemoryInitAfterReply p reply).c = true ∧
          sharedMemoryInitAfterReply (sharedMemoryInitAfterReply p reply) later
            = sharedMemoryInitAfterReply p reply) := by
  have hnoop : ∀ (p : Proc) (reply : Option redisReply),
      (isBlocking p.c = true ∨ p.c.shm_context = none ∨
          ∃ ctx, p.c.shm_context = some ctx ∧ ctx.name = []) →
        sharedMemoryInitAfterReply p reply = p := by
    intro p reply h
    unfold sharedMemoryInitAfterReply
    cases hc : p.c.shm_context with
    | none => rfl
    | some ctx =>
      have hcond : ¬ (isBlocking p.c = false ∧ ctx.name ≠ []) := by
        rintro ⟨hnb, hname⟩
        rcases h with h | h | ⟨d, hd, hdn⟩
        · rw [hnb] at h
          exact absurd h (by decide)
        · rw [hc] at h
          exact absurd h (by simp)
        · rw [hc] at hd
          cases hd
          exact hname hdn
      simp only [if_neg hcond]
  have hinit : ∀ (p : Proc) (reply : Option redisReply),
      sharedMemoryIsInitialized p.c = true → sharedMemoryInitAfterReply p reply = p := by
    intro p reply h
    apply hnoop
    right
    unfold sharedMemoryIsInitialized at h
    cases hc : p.c.shm_context with
    | none => left; rfl
    | some ctx =>
      right
      rw [hc] at h
      exact ⟨ctx, rfl, by simpa using h⟩
  refine ⟨hnoop, ?_, hinit, ?_⟩
  · intro p host mode reply hnb
    unfold sharedMemoryInit
    simp only []
    generalize hmade : sharedMemoryContextInit _ host mode = made
    have hp : made.1.c.flags = p.c.flags ∧
        ∀ ctx, made.1.c.shm_context = some ctx → ctx.name ≠ [] := by
      rw [← hmade]
      exact sharedMemoryContextInit_pending _ host mode
    obtain ⟨hflags, hname⟩ := hp
    have hnb1 : isBlocking made.1.c = false := by
      rw [isBlocking_of_flags hflags]
      exact hnb
    split_ifs
    · exact sharedMemoryIsInitialized_pending _ hname
    · unfold sharedMemoryEstablishCommunication
      cases hc : made.1.c.shm_context with
      | none => exact sharedMemoryIsInitialized_pending _ hname
      | some tmp =>
        simp only [hnb1]
        exact sharedMemoryIsInitialized_pending _ hname
  · intro p ctx reply later h hname hnb hacc
    have hrun : sharedMemoryInitAfterReply p reply = sharedMemoryProcessShmOpenReply p reply := by
      unfold sharedMemoryInitAfterReply
      rw [h]
      simp only [if_pos (⟨hnb, hname⟩ : isBlocking p.c = false ∧ ctx.name ≠ [])]
    have hest : sharedMemoryIsInitialized (sharedMemoryInitAfterReply p reply).c = true := by
      rw [hrun]
      exact (sharedMemoryProcessShmOpenReply_spec p ctx reply h).1.mpr hacc
    exact ⟨hest, hinit _ later hest⟩

/-- Witness of C7: the hook leaves a blocking pending connection alone; a
non-blocking `sharedMemoryInit` ends not initialised; after the reply `1` has
been accepted, the replies `0` and error change nothing. -/
theorem sharedMemoryInitAfterReply_noop_witness :
    sharedMemoryInitAfterReply ⟨pendingCtx REDIS_BLOCK, []⟩ (some (integerReply 0))
        = ⟨pendingCtx REDIS_BLOCK, []⟩ ∧
      sharedMemoryIsInitialized
        (sharedMemoryInit ⟨nonBlockingCtx, []⟩ goodHost 0o600 none).1.c = false ∧
      sharedMemoryInitAfterReply ⟨nonBlockingCtx, []⟩ (some errorReply)
        = ⟨nonBlockingCtx, []⟩ ∧
      (sharedMemoryIsInitialized
          (sharedMemoryInitAfterReply ⟨pendingCtx 0, []⟩ (some (integerReply 1))).c = true ∧
        sharedMemoryInitAfterReply
            (sharedMemoryInitAfterReply ⟨pendingCtx 0, []⟩ (some (integerReply 1)))
            (some (integerReply 0))
          = sharedMemoryInitAfterReply ⟨pendingCtx 0, []⟩ (some (integerReply 1))) :=
  ⟨sharedMemoryInitAfterReply_noop.1 ⟨pendingCtx REDIS_BLOCK, []⟩ (some (integerReply 0))
      (Or.inl (by decide)),
    sharedMemoryInitAfterReply_noop.2.1 ⟨nonBlockingCtx, []⟩ goodHost 0o600 none (by decide),
    sharedMemoryInitAfterReply_noop.2.2.1 ⟨nonBlockingCtx, []⟩ (some errorReply) (by decide),
    sharedMemoryInitAfterReply_noop.2.2.2 ⟨pendingCtx 0, []⟩ _ (some (integerReply 1))
      (some (integerReply 0)) rfl (by decide) (by decide) (by decide)⟩

end Shm
